import Mathlib

/-!
Shallow embedding of the composefs mount orchestration
(`src/libcomposefs/lcfs-mount.c`) and of the image-reader interface that
its fuzz harness (`src/fuzzing/main.c`) exercises.

Syscalls and other OS interactions are modelled as explicit oracle
parameters: each embedded function takes the outcomes the kernel would
return and computes the same control flow as the C code.  C strings are
`List Char`, byte buffers are `List Nat`, and the C `errint_t` convention
(negative errno on failure) is modelled with `Int`.
-/

namespace Composefs

/-! ### Errno constants (values from the C library headers) -/

def EINVAL : Int := 22
def ENOMEM : Int := 12
def ENOSYS : Int := 38
def ENOTSUP : Int := 95

/-- Modelled from the spec: the custom "wrong fs-verity digest" errno that
`lcfs-mount.h` (not included under `src/`) defines for
`lcfs_validate_verity_fd`.  Its concrete value is irrelevant to the claims;
it only needs to be a fixed positive constant distinct from the others. -/
def EWRONGVERITY : Int := 101771

/-! ### `escape_mount_option_to` / `escape_mount_option`
(`src/libcomposefs/lcfs-mount.c:145-179`) -/

/-- The copy loop of `escape_mount_option_to`: copies `str` while writing a
backslash immediately before every comma. -/
def escape_chars : List Char → List Char
  | [] => []
  | c :: rest =>
    if c = ',' then '\\' :: c :: escape_chars rest
    else c :: escape_chars rest

/-- `escape_mount_option_to(str, dest)` appends the escaped copy of `str`
at the current end of `dest`. -/
def escape_mount_option_to (str dest : List Char) : List Char :=
  dest ++ escape_chars str

/-- `escape_mount_option(str)` allocates an empty string and appends the
escaped copy of `str` to it. -/
def escape_mount_option (str : List Char) : List Char :=
  escape_mount_option_to str []

/-! ### `compute_lower` (`src/libcomposefs/lcfs-mount.c:269-297`)

Starts from the escaped image mount path and, for each object directory,
appends `"::"` (with data-lower) or `":"` followed by the escaped
directory. -/

def compute_lower (imagemount : List Char) (objdirs : List (List Char))
    (with_datalower : Bool) : List Char :=
  objdirs.foldl
    (fun lower objdir =>
      escape_mount_option_to objdir
        (lower ++ (if with_datalower then [':', ':'] else [':'])))
    (escape_mount_option_to imagemount [])

/-! ### Mount flags and options

The flag bit values and digest sizes live in `lcfs-mount.h` /
`lcfs-internal.h`, which are not under `src/`; the concrete values below
are modelled (distinct bits whose exact values are irrelevant to the
claims, which only use bit tests and the combined mask). -/

def LCFS_MOUNT_FLAGS_REQUIRE_VERITY : Nat := 1
def LCFS_MOUNT_FLAGS_READONLY : Nat := 2
def LCFS_MOUNT_FLAGS_IDMAP : Nat := 4
def LCFS_MOUNT_FLAGS_TRY_VERITY : Nat := 8
def LCFS_MOUNT_FLAGS_VOLATILE : Nat := 16
def LCFS_MOUNT_FLAGS_MASK : Nat := 31
def MAX_DIGEST_SIZE : Nat := 64
def LCFS_DIGEST_SIZE : Nat := 32

/-- `struct lcfs_mount_options_s` (declared in `lcfs-mount.h`): the list
`objdirs` stands for the `objdirs`/`n_objdirs` pair, and `Option` fields
stand for possibly-NULL pointers. -/
structure lcfs_mount_options_s where
  objdirs : List (List Char)
  flags : Nat
  idmap_fd : Int
  expected_fsverity_digest : Option (List Char)
  upperdir : Option (List Char)
  workdir : Option (List Char)
  image_mountdir : Option (List Char)

/-! ### `lcfs_validate_mount_options` (`src/libcomposefs/lcfs-mount.c:181-209`)

`digest_to_raw` (from `lcfs-utils.h`, not under `src/`) is passed as an
oracle returning the parsed length (negative when unparsable) and the raw
digest bytes.  The C function writes `state->expected_digest{,_len}`; here
the result is `(errint, raw digest bytes, digest length)`. -/

def lcfs_validate_mount_options (options : lcfs_mount_options_s)
    (digestToRaw : List Char → Int × List Nat) : Int × List Nat × Nat :=
  -- `(options->flags & ~LCFS_MOUNT_FLAGS_MASK) != 0`, written mask-side
  -- since Nat has no complement: some flag bit lies outside the mask.
  if options.flags &&& LCFS_MOUNT_FLAGS_MASK ≠ options.flags then
    (-EINVAL, [], 0)
  else if options.objdirs.length = 0 then (-EINVAL, [], 0)
  else if (options.upperdir.isSome ∧ options.workdir = none) ∨
      (options.upperdir = none ∧ options.workdir.isSome) then
    (-EINVAL, [], 0)
  else
    match options.expected_fsverity_digest with
    | some d =>
      let raw := digestToRaw d
      if raw.1 < 0 then (-EINVAL, [], 0)
      else if options.flags &&& LCFS_MOUNT_FLAGS_IDMAP ≠ 0 ∧ options.idmap_fd < 0 then
        (-EINVAL, raw.2, raw.1.toNat)
      else (0, raw.2, raw.1.toNat)
    | none =>
      if options.flags &&& LCFS_MOUNT_FLAGS_IDMAP ≠ 0 ∧ options.idmap_fd < 0 then
        (-EINVAL, [], 0)
      else (0, [], 0)

/-! ### `lcfs_validate_verity_fd` (`src/libcomposefs/lcfs-mount.c:211-226`)

`lcfs_fd_measure_fsverity` is an ioctl over the image fd; its outcome is
the `measure` oracle: a negative errint or the measured digest bytes. -/

def lcfs_validate_verity_fd (expected_digest : List Nat)
    (expected_digest_len : Nat) (measure : Except Int (List Nat)) : Int :=
  if expected_digest_len ≠ 0 then
    match measure with
    | .error e => e
    | .ok found =>
      -- memcmp(state->expected_digest, found_digest, LCFS_DIGEST_SIZE)
      if expected_digest.take LCFS_DIGEST_SIZE ≠ found.take LCFS_DIGEST_SIZE then
        -EWRONGVERITY
      else 0
  else 0

/-! ### The EROFS header (`struct lcfs_erofs_header_s`, `lcfs-erofs.h`)

Modelled from the spec: the header file is not under `src/`.  The header
is a fixed-size 32-byte prologue holding little-endian `u32` fields
`magic` (offset 0), `version` (offset 4) and `flags` (offset 8); the
magic constant and the has-ACL flag bit are fixed values. -/

def HEADER_SIZE : Nat := 32
def LCFS_EROFS_MAGIC : Nat := 0xd078629a
def LCFS_EROFS_FLAGS_HAS_ACL : Nat := 1

/-- `lcfs_u32_from_file`: little-endian decode of the `u32` stored at byte
offset `off` of the raw header bytes. -/
def lcfs_u32_from_file (bytes : List Nat) (off : Nat) : Nat :=
  bytes.getD off 0 % 256 + 256 * (bytes.getD (off + 1) 0 % 256) +
    65536 * (bytes.getD (off + 2) 0 % 256) +
    16777216 * (bytes.getD (off + 3) 0 % 256)

def erofs_header_magic (bytes : List Nat) : Nat := lcfs_u32_from_file bytes 0

def erofs_header_flags (bytes : List Nat) : Nat := lcfs_u32_from_file bytes 8

/-! ### `lcfs_mount` (`src/libcomposefs/lcfs-mount.c:635-657`) -/

/-- Outcome of the `pread(fd, buf, count, off)` call: a negative errint,
or the bytes actually read (so `res` is the length of `bytes`). -/
inductive PreadOut where
  | fail (negErrno : Int)
  | ok (bytes : List Nat)
deriving DecidableEq

/-- The OS-interaction oracles `lcfs_mount` consumes: the fs-verity
measurement of the image fd, positioned reads on the image fd (indexed by
`(count, offset)`), and the result of delegating to
`lcfs_mount_erofs_ovl` on a given raw header. -/
structure MountWorld where
  measure : Except Int (List Nat)
  pread : Nat → Nat → PreadOut
  erofsOvl : List Nat → Int

/-- The routing decision `lcfs_mount` takes: delegate the raw header to
the EROFS/overlay path, or return an errint without mounting anything. -/
inductive MountRoute where
  | erofs (header : List Nat)
  | fail (e : Int)
deriving DecidableEq

def lcfs_mount_route (expected_digest : List Nat) (expected_digest_len : Nat)
    (w : MountWorld) : MountRoute :=
  let err := lcfs_validate_verity_fd expected_digest expected_digest_len w.measure
  if err < 0 then .fail err
  else
    match w.pread HEADER_SIZE 0 with
    | .fail e => .fail e
    | .ok bytes =>
      if bytes.length ≠ HEADER_SIZE then .fail (-EINVAL)
      else if erofs_header_magic bytes = LCFS_EROFS_MAGIC then .erofs bytes
      else .fail (-EINVAL)

def lcfs_mount (expected_digest : List Nat) (expected_digest_len : Nat)
    (w : MountWorld) : Int :=
  match lcfs_mount_route expected_digest expected_digest_len w with
  | .erofs header => w.erofsOvl header
  | .fail e => e

/-! ### `lcfs_mount_fd` / `lcfs_mount_image` (`src/libcomposefs/lcfs-mount.c:659-711`)

Both return the C `(return value, errno)` pair, with `errno = 0` on the
success path (where the C code leaves errno untouched).  `openErr` models
`open(path, O_RDONLY | O_CLOEXEC)` in `lcfs_mount_image`: `some e` is a
failure with errno `e` (the C code then returns -1 without touching
errno), `none` is success. -/

def lcfs_mount_fd (options : lcfs_mount_options_s)
    (digestToRaw : List Char → Int × List Nat) (w : MountWorld) : Int × Int :=
  let v := lcfs_validate_mount_options options digestToRaw
  if v.1 < 0 then (-1, -v.1)
  else
    let res := lcfs_mount v.2.1 v.2.2 w
    if res < 0 then (-1, -res) else (0, 0)

def lcfs_mount_image (options : lcfs_mount_options_s)
    (digestToRaw : List Char → Int × List Nat) (openErr : Option Int)
    (w : MountWorld) : Int × Int :=
  let v := lcfs_validate_mount_options options digestToRaw
  if v.1 < 0 then (-1, -v.1)
  else
    match openErr with
    | some e => (-1, e)
    | none =>
      let res := lcfs_mount v.2.1 v.2.2 w
      if res < 0 then (-1, -res) else (0, 0)

/-- The inconsistent-option conditions rejected by
`lcfs_validate_mount_options`: flag bits outside the mask, zero object
directories, exactly one of upperdir/workdir, an unparsable expected
fs-verity digest, or the IDMAP flag with a negative idmap fd. -/
def bad_mount_options (options : lcfs_mount_options_s)
    (digestToRaw : List Char → Int × List Nat) : Prop :=
  options.flags &&& LCFS_MOUNT_FLAGS_MASK ≠ options.flags ∨
  options.objdirs.length = 0 ∨
  (options.upperdir.isSome ∧ options.workdir = none) ∨
  (options.upperdir = none ∧ options.workdir.isSome) ∨
  (∃ d, options.expected_fsverity_digest = some d ∧ (digestToRaw d).1 < 0) ∨
  (options.flags &&& LCFS_MOUNT_FLAGS_IDMAP ≠ 0 ∧ options.idmap_fd < 0)

/-! ### `lcfs_mount_erofs` (`src/libcomposefs/lcfs-mount.c:500-578`)

The kernel interactions of the EROFS mount are modelled as a trace of
`SysAction`s together with an oracle `sys` giving each action's result
(`≥ 0` success, negative errint on failure; for the wrappers that set
errno, the oracle value is `-errno`). -/

def MS_RDONLY : Nat := 1
def MS_SILENT : Nat := 32768

inductive SysAction where
  | fsopen (fsname : String)
  | fsconfigStr (key : String) (value : List Char)
  | fsconfigFlag (key : String)
  | fsconfigCreate
  | fsmount
  | mountSetattr
  | moveMount (target : List Char)
  | mountLegacy (source target : List Char) (fstype : String) (flags : Nat)
      (data : Option (List Char))
deriving DecidableEq

/-- The `fallback:` label of `lcfs_mount_erofs`: plain mount(2) with
"noacl" data unless the image carries ACLs; idmapping needs the new
API, so it is refused with `-ENOTSUP` here. -/
def lcfs_mount_erofs_fallback (sys : SysAction → Int)
    (source target : List Char) (image_flags : Nat) (optflags : Nat) :
    Int × List SysAction :=
  if optflags &&& LCFS_MOUNT_FLAGS_IDMAP ≠ 0 then (-ENOTSUP, [])
  else
    let act := SysAction.mountLegacy source target "erofs" MS_RDONLY
      (if image_flags &&& LCFS_EROFS_FLAGS_HAS_ACL ≠ 0 then none
       else some "noacl".toList)
    (if sys act < 0 then sys act else 0, [act])

/-- The `noacl` fsconfig step of the new-API EROFS mount, performed
exactly when the image lacks ACLs
(`if (!image_has_acls) fsconfig(fd_fs, FSCONFIG_SET_FLAG, "noacl", ...)`). -/
def erofs_noacl_steps (image_flags : Nat) : List SysAction :=
  if image_flags &&& LCFS_EROFS_FLAGS_HAS_ACL ≠ 0 then []
  else [SysAction.fsconfigFlag "noacl"]

/-- The idmap `mount_setattr` step, performed when idmapping was
requested and `HAVE_MOUNT_ATTR_IDMAP` is compiled in. -/
def erofs_idmap_steps (optflags : Nat) (hasMountAttrIdmap : Bool) :
    List SysAction :=
  if optflags &&& LCFS_MOUNT_FLAGS_IDMAP ≠ 0 ∧ hasMountAttrIdmap then
    [SysAction.mountSetattr]
  else []

/-- `lcfs_mount_erofs`: returns the errint result together with the list
of kernel actions performed, in order.  The two `Bool`s model the
compile-time `HAVE_NEW_MOUNT_API` and `HAVE_MOUNT_ATTR_IDMAP`
conditionals. -/
def lcfs_mount_erofs (hasNewMountApi hasMountAttrIdmap : Bool)
    (sys : SysAction → Int) (source target : List Char)
    (image_flags : Nat) (optflags : Nat) : Int × List SysAction :=
  let image_has_acls := image_flags &&& LCFS_EROFS_FLAGS_HAS_ACL ≠ 0
  let use_idmap := optflags &&& LCFS_MOUNT_FLAGS_IDMAP ≠ 0
  let fallback : Int × List SysAction :=
    lcfs_mount_erofs_fallback sys source target image_flags optflags
  if hasNewMountApi then
    let a0 := SysAction.fsopen "erofs"
    let r0 := sys a0
    if r0 < 0 then
      if r0 = -ENOSYS then (fallback.1, a0 :: fallback.2)
      else (r0, [a0])
    else
      let a1 := SysAction.fsconfigStr "source" source
      let r1 := sys a1
      if r1 < 0 then (r1, [a0, a1]) else
      let a2 := SysAction.fsconfigFlag "ro"
      let r2 := sys a2
      if r2 < 0 then (r2, [a0, a1, a2]) else
      let noaclSteps := erofs_noacl_steps image_flags
      let r3 : Int :=
        if image_has_acls then 0 else sys (SysAction.fsconfigFlag "noacl")
      if r3 < 0 then (r3, [a0, a1, a2] ++ noaclSteps) else
      let a4 := SysAction.fsconfigCreate
      let r4 := sys a4
      if r4 < 0 then (r4, [a0, a1, a2] ++ noaclSteps ++ [a4]) else
      let a5 := SysAction.fsmount
      let r5 := sys a5
      if r5 < 0 then (r5, [a0, a1, a2] ++ noaclSteps ++ [a4, a5]) else
      let idmapSteps := erofs_idmap_steps optflags hasMountAttrIdmap
      let r6 : Int :=
        if use_idmap then
          (if hasMountAttrIdmap then sys SysAction.mountSetattr else -ENOTSUP)
        else 0
      if r6 < 0 then (r6, [a0, a1, a2] ++ noaclSteps ++ [a4, a5] ++ idmapSteps) else
      let a7 := SysAction.moveMount target
      let r7 := sys a7
      (if r7 < 0 then r7 else 0,
        [a0, a1, a2] ++ noaclSteps ++ [a4, a5] ++ idmapSteps ++ [a7])
  else fallback

/-! ### `lcfs_mount_ovl` (`src/libcomposefs/lcfs-mount.c:372-498`)

The new-mount-API overlay setup.  Each kernel call is named by an
`OvlCall` (the object-directory loop indexes its calls by position) and
the oracle `sysO` gives each call's result.  Failures of `lowerdir+`,
`datadir+`, `upperdir`, `workdir` and `FSCONFIG_CMD_CREATE` with `EINVAL`
are translated to `-ENOSYS` to request the legacy fallback. -/

inductive OvlCall where
  | fsopenOverlay
  | cfgUnsupported
  | cfgSource
  | cfgMetacopy
  | cfgRedirect
  | cfgVerity
  | cfgVolatile
  | cfgLowerdirAppend
  | cfgDatadirAppend (i : Nat)
  | cfgUpperdir
  | cfgWorkdir
  | cfgCreate
  | fsmountCall
  | moveMountCall
deriving DecidableEq

/-- The `datadir+` loop over `n` object directories, starting at index
`i`: stops at the first failure, translating `EINVAL` to `-ENOSYS`. -/
def lcfs_mount_ovl_datadirs (sysO : OvlCall → Int) (i : Nat) : Nat → Int
  | 0 => 0
  | m + 1 =>
    let r := sysO (.cfgDatadirAppend i)
    if r < 0 then (if r = -EINVAL then -ENOSYS else r)
    else lcfs_mount_ovl_datadirs sysO (i + 1) m

def lcfs_mount_ovl (hasNewMountApi : Bool) (sysO : OvlCall → Int)
    (optflags : Nat) (upperdir workdir : Option (List Char))
    (n_objdirs : Nat) : Int :=
  if hasNewMountApi then
    let require_verity := optflags &&& LCFS_MOUNT_FLAGS_REQUIRE_VERITY ≠ 0
    let try_verity := optflags &&& LCFS_MOUNT_FLAGS_TRY_VERITY ≠ 0
    let try_volatile := optflags &&& LCFS_MOUNT_FLAGS_VOLATILE ≠ 0
    let r0 := sysO .fsopenOverlay
    if r0 < 0 then r0 else
    -- fsconfig("unsupported", "unsupported") succeeding means overlayfs is
    -- on the legacy non-validating mechanism: request the fallback.
    let r1 := sysO .cfgUnsupported
    if r1 = 0 then -ENOSYS else
    let r2 := sysO .cfgSource
    if r2 < 0 then r2 else
    let r3 := sysO .cfgMetacopy
    if r3 < 0 then r3 else
    let r4 := sysO .cfgRedirect
    if r4 < 0 then r4 else
    let rv := if require_verity ∨ try_verity then sysO .cfgVerity else 0
    if rv < 0 ∧ require_verity then rv else
    -- the volatile flag's failure is deliberately ignored
    let (_ : Int) := if try_volatile then sysO .cfgVolatile else 0
    let rl := sysO .cfgLowerdirAppend
    if rl < 0 then (if rl = -EINVAL then -ENOSYS else rl) else
    let rd := lcfs_mount_ovl_datadirs sysO 0 n_objdirs
    if rd < 0 then rd else
    let ru := match upperdir with
      | some _ => sysO .cfgUpperdir
      | none => 0
    if ru < 0 then (if ru = -EINVAL then -ENOSYS else ru) else
    let rw := match workdir with
      | some _ => sysO .cfgWorkdir
      | none => 0
    if rw < 0 then (if rw = -EINVAL then -ENOSYS else rw) else
    let rc := sysO .cfgCreate
    if rc < 0 then (if rc = -EINVAL then -ENOSYS else rc) else
    let rm := sysO .fsmountCall
    if rm < 0 then rm else
    let rmv := sysO .moveMountCall
    if rmv < 0 then rmv else 0
  else -ENOSYS

/-! ### `lcfs_mount_ovl_legacy` (`src/libcomposefs/lcfs-mount.c:299-370`)

The legacy overlay mount(2) path.  `mountRes` maps the overlay options
string and mount flags of an attempt to its errint outcome (0 success).
Allocation failures (`-ENOMEM` paths) are not modelled.  The result also
carries the list of mount attempts actually made. -/

/-- The `asprintf` format
`"metacopy=on,redirect_dir=on,lowerdir=%s%s%s%s%s%s"`. -/
def legacy_overlay_options (lowerdir : List Char)
    (upperdir workdir : Option (List Char)) (require_verity : Bool) : List Char :=
  "metacopy=on,redirect_dir=on,lowerdir=".toList ++ lowerdir ++
    (match upperdir with
     | some u => ",upperdir=".toList ++ u
     | none => []) ++
    (match workdir with
     | some w => ",workdir=".toList ++ w
     | none => []) ++
    (if require_verity then ",verity=require".toList else [])

/-- One mount(2) attempt of the legacy path: the overlay options string
(lowerdir computed with `"::"` when `with_datalower`, `":"` otherwise;
upperdir/workdir escaped) and the mount flags (`MS_SILENT` is set only on
the first, `"::"`, attempt). -/
def legacy_attempt (with_datalower : Bool) (imagemount : List Char)
    (objdirs : List (List Char)) (optflags : Nat)
    (upperdir workdir : Option (List Char)) : List Char × Nat :=
  let require_verity := optflags &&& LCFS_MOUNT_FLAGS_REQUIRE_VERITY ≠ 0
  let readonly := optflags &&& LCFS_MOUNT_FLAGS_READONLY ≠ 0
  (legacy_overlay_options (compute_lower imagemount objdirs with_datalower)
     (upperdir.map escape_mount_option) (workdir.map escape_mount_option)
     require_verity,
   (if readonly then MS_RDONLY else 0) |||
     (if with_datalower then MS_SILENT else 0))

def lcfs_mount_ovl_legacy (mountRes : List Char → Nat → Int)
    (imagemount : List Char) (objdirs : List (List Char)) (optflags : Nat)
    (upperdir workdir : Option (List Char)) : Int × List (List Char × Nat) :=
  -- first try the new "::" data-dir separator, then fall back to ":" once
  let a1 := legacy_attempt true imagemount objdirs optflags upperdir workdir
  let a2 := legacy_attempt false imagemount objdirs optflags upperdir workdir
  let e1 := mountRes a1.1 a1.2
  if e1 = -EINVAL then (mountRes a2.1 a2.2, [a1, a2])
  else (e1, [a1])

/-! ### `lcfs_mount_erofs_ovl` (`src/libcomposefs/lcfs-mount.c:582-633`) -/

/-- The OS outcomes `lcfs_mount_erofs_ovl` consumes: `setup_loopback`
(a loop fd `≥ 0` or a negative errint), `mkdtemp` (`some e` = failure
with errno `e`), and the oracles of the nested mount helpers. -/
structure ErofsOvlWorld where
  loop : Int
  mkdtempErr : Option Int
  sysErofs : SysAction → Int
  sysOvl : OvlCall → Int
  mountOvlLegacy : List Char → Nat → Int

/-- `lcfs_mount_erofs_ovl`: returns the errint result and the legacy
overlay mount attempts made (empty iff `lcfs_mount_ovl_legacy` was never
invoked).  `loopname` and `imagemountTmp` are the loop-device path and
the `mkdtemp`-generated directory. -/
def lcfs_mount_erofs_ovl (hasNewMountApi hasMountAttrIdmap : Bool)
    (w : ErofsOvlWorld) (options : lcfs_mount_options_s) (header : List Nat)
    (loopname imagemountTmp : List Char) : Int × List (List Char × Nat) :=
  let image_flags := erofs_header_flags header
  if w.loop < 0 then (w.loop, [])
  else
    let imagemountRes : Except Int (List Char) :=
      match options.image_mountdir with
      | some d => .ok d
      | none =>
        match w.mkdtempErr with
        | some e => .error (-e)
        | none => .ok imagemountTmp
    match imagemountRes with
    | .error e => (e, [])
    | .ok imagemount =>
      let er := lcfs_mount_erofs hasNewMountApi hasMountAttrIdmap w.sysErofs
        loopname imagemount image_flags options.flags
      if er.1 < 0 then (er.1, [])
      else
        let e1 := lcfs_mount_ovl hasNewMountApi w.sysOvl options.flags
          options.upperdir options.workdir options.objdirs.length
        if e1 = -ENOSYS then
          lcfs_mount_ovl_legacy w.mountOvlLegacy imagemount options.objdirs
            options.flags options.upperdir options.workdir
        else (e1, [])

/-! ### Fuzz-harness bounded traversal (`src/fuzzing/main.c:26-66,114-169`)

`iter_cb` descends into a subdirectory only while
`test_ctx->recursion_left > 0`, decrementing the counter around the
nested `lcfs_iterate_dir` call and restoring it afterwards.  Because the
counter is restored after each nested call, sibling entries all see the
same counter value and each nested level sees the value minus one, so the
mutable counter behaves exactly like the fuel parameter below.  The
directory structure the traversal discovers is abstracted as `children`,
mapping an inode index to the child inode indices its directory yields. -/

def max_recursion : Nat := 4

/-- Number of nested `lcfs_iterate_dir` calls issued while `iter_cb`
processes inode `ino` with `recursion_left` fuel remaining: with fuel
left it opens the directory and iterates it (one nested level), running
itself on every child with one unit less. -/
def iter_cb_nesting (children : Nat → List Nat) : Nat → Nat → Nat
  | 0, _ => 0
  | fuel + 1, ino =>
    1 + ((children ino).map (iter_cb_nesting children fuel)).foldr max 0

/-- The harness body: `lcfs_iterate_dir` over the root directory entries
`rootEntries` with `test_ctx.recursion_left = max_recursion`, counting
the deepest chain of nested `lcfs_iterate_dir` calls it triggers. -/
def harness_iterate_nesting (children : Nat → List Nat)
    (rootEntries : List Nat) : Nat :=
  (rootEntries.map (iter_cb_nesting children max_recursion)).foldr max 0

/-! ### Spec-modelled image reader (`kernel/lcfs-reader.c`, not under `src/`)

The reader that `src/fuzzing/main.c` exercises (`lcfs_create_ctx`,
`lcfs_get_ino_index`, `lcfs_lookup`) is not part of the sources; the
definitions below are modelled from the spec (§3, §4.1-§4.3): a
fixed-size validated header (magic, version, inode count, inode table
offset), fixed-stride inode records, and binary-search directory lookup
over byte-lexicographically sorted entries.  All buffer accesses are
bounds-checked reads. -/

inductive LcfsErr where
  | Truncated
  | InvalidFormat
  | UnsupportedVersion
  | OutOfRange
deriving DecidableEq

def LCFS_SPEC_HEADER_SIZE : Nat := 16
def LCFS_SPEC_MAGIC : Nat := 0xc078629a
def LCFS_SPEC_VERSION : Nat := 1
def LCFS_INODE_SIZE : Nat := 64
def LCFS_ROOT_INODE : Nat := 0

/-- Bounds-checked little-endian `u32` read. -/
def read_u32le (buf : List Nat) (off : Nat) : Option Nat :=
  if off + 4 ≤ buf.length then some (lcfs_u32_from_file buf off) else none

/-- Modelled from the spec: the Context, binding the byte source to the
validated header fields. -/
structure lcfs_context_s where
  buf : List Nat
  inode_count : Nat
  inode_table_offset : Nat
deriving DecidableEq

/-- A minimal valid image for concrete evaluation: magic, version 1,
one inode, table at offset 16, followed by one 64-byte inode record. -/
def witness_image : List Nat :=
  [0x9a, 0x62, 0x78, 0xc0, 1, 0, 0, 0, 1, 0, 0, 0, 16, 0, 0, 0] ++
    List.replicate 64 0

/-- A raw EROFS header for concrete evaluation: the magic in little-endian
byte order followed by zero version/flags words. -/
def c1_header : List Nat :=
  [0x9a, 0x62, 0x78, 0xd0] ++ List.replicate 28 0

/-- Modelled from the spec: `lcfs_create_ctx` reads the fixed-size header,
verifies magic, version and that the inode table (and the root inode,
index 0) lies within the source, and otherwise fails with a well-defined
error. -/
def lcfs_create_ctx (buf : List Nat) : Except LcfsErr lcfs_context_s :=
  match read_u32le buf 0, read_u32le buf 4, read_u32le buf 8, read_u32le buf 12 with
  | some magic, some version, some count, some toff =>
    if magic ≠ LCFS_SPEC_MAGIC then .error .InvalidFormat
    else if version ≠ LCFS_SPEC_VERSION then .error .UnsupportedVersion
    else if count = 0 then .error .InvalidFormat
    else if toff + count * LCFS_INODE_SIZE > buf.length then .error .Truncated
    else .ok ⟨buf, count, toff⟩
  | _, _, _, _ => .error .Truncated

/-- Modelled from the spec: `lcfs_get_ino_index` validates the index
against the inode count and the computed byte range against the source
length (defensively), then materializes the fixed-stride record. -/
def lcfs_get_ino_index (ctx : lcfs_context_s) (idx : Nat) :
    Except LcfsErr (List Nat) :=
  if ctx.inode_count ≤ idx then .error .OutOfRange
  else if ctx.buf.length < ctx.inode_table_offset + (idx + 1) * LCFS_INODE_SIZE then
    .error .Truncated
  else
    .ok ((ctx.buf.drop (ctx.inode_table_offset + idx * LCFS_INODE_SIZE)).take
      LCFS_INODE_SIZE)

/-! ### Spec-modelled directory lookup (`lcfs_lookup`)

Directory entries are (name bytes, inode reference) pairs; names are
compared in strict total byte-lexicographic order. -/

/-- Byte-lexicographic three-way comparison of names. -/
def name_cmp : List Nat → List Nat → Ordering
  | [], [] => .eq
  | [], _ :: _ => .lt
  | _ :: _, [] => .gt
  | a :: as, b :: bs =>
    if a < b then .lt else if b < a then .gt else name_cmp as bs

/-- Modelled from the spec: the binary-search loop of `lcfs_lookup` over
the half-open index range `[lo, hi)`; every probe is bounds-checked
independently (`get?`).  `fuel` only bounds the iteration count (any
value `≥ hi - lo` gives the search enough steps). -/
def lcfs_lookup_go (entries : List (List Nat × Nat)) (name : List Nat) :
    Nat → Nat → Nat → Option Nat
  | 0, _, _ => none
  | fuel + 1, lo, hi =>
    if lo < hi then
      let mid := (lo + hi) / 2
      match entries.get? mid with
      | none => none
      | some e =>
        match name_cmp name e.1 with
        | .lt => lcfs_lookup_go entries name fuel lo mid
        | .eq => some e.2
        | .gt => lcfs_lookup_go entries name fuel (mid + 1) hi
    else none

/-- Modelled from the spec: `lcfs_lookup(dir, name)` binary-searches the
whole entry array; `none` is the NotFound result. -/
def lcfs_lookup (entries : List (List Nat × Nat)) (name : List Nat) :
    Option Nat :=
  lcfs_lookup_go entries name (entries.length + 1) 0 entries.length

/-- Reference linear scan over the entry array. -/
def linear_scan : List (List Nat × Nat) → List Nat → Option Nat
  | [], _ => none
  | e :: rest, name => if e.1 = name then some e.2 else linear_scan rest name

/-- The directory invariant: entries strictly sorted by name in
byte-lexicographic order (strictness also rules out duplicates). -/
def dir_sorted : List (List Nat × Nat) → Bool
  | [] => true
  | [_] => true
  | a :: b :: rest => decide (name_cmp a.1 b.1 = .lt) && dir_sorted (b :: rest)

/-! ## Theorems -/

/-! Helper lemmas about the escape functions. -/

theorem escape_chars_eq_flatMap (s : List Char) :
    escape_chars s = s.flatMap (fun c => if c = ',' then ['\\', c] else [c]) := by
  induction s with
  | nil => rfl
  | cons c rest ih =>
    by_cases h : c = ',' <;> simp [escape_chars, h, ih]

theorem escape_chars_length (s : List Char) :
    (escape_chars s).length = s.length + s.count ',' := by
  induction s with
  | nil => rfl
  | cons c rest ih =>
    by_cases h : c = ',' <;>
      simp [escape_chars, h, ih, List.count_cons] <;> omega

theorem compute_lower_foldl (sep : List Char) (objdirs : List (List Char)) :
    ∀ init : List Char,
      objdirs.foldl (fun lower objdir =>
        escape_mount_option_to objdir (lower ++ sep)) init =
      init ++ objdirs.flatMap (fun d => sep ++ escape_chars d) := by
  induction objdirs with
  | nil => intro init; simp
  | cons d rest ih =>
    intro init
    rw [List.foldl_cons]
    simp only [escape_mount_option_to] at ih ⊢
    rw [ih]
    simp [List.append_assoc]

/-! Order lemmas for `name_cmp`. -/

theorem name_cmp_self (a : List Nat) : name_cmp a a = .eq := by
  induction a with
  | nil => rfl
  | cons x xs ih => simp [name_cmp, ih]

theorem name_cmp_eq_iff {a b : List Nat} : name_cmp a b = .eq ↔ a = b := by
  constructor
  · intro h
    induction a generalizing b with
    | nil =>
      cases b with
      | nil => rfl
      | cons y ys => simp [name_cmp] at h
    | cons x xs ih =>
      cases b with
      | nil => simp [name_cmp] at h
      | cons y ys =>
        unfold name_cmp at h
        split_ifs at h with h1 h2
        have hxy : x = y := by omega
        rw [hxy, ih h]
  · rintro rfl
    exact name_cmp_self a

theorem name_cmp_gt_iff {a b : List Nat} :
    name_cmp a b = .gt ↔ name_cmp b a = .lt := by
  induction a generalizing b with
  | nil => cases b <;> simp [name_cmp]
  | cons x xs ih =>
    cases b with
    | nil => simp [name_cmp]
    | cons y ys =>
      rcases Nat.lt_trichotomy x y with h | h | h
      · simp [name_cmp, h, Nat.lt_asymm h]
      · subst h
        simp [name_cmp, Nat.lt_irrefl, ih]
      · simp [name_cmp, h, Nat.lt_asymm h]

theorem name_cmp_lt_trans :
    ∀ {a b c : List Nat},
      name_cmp a b = .lt → name_cmp b c = .lt → name_cmp a c = .lt := by
  intro a
  induction a with
  | nil =>
    intro b c h1 h2
    cases b with
    | nil => exact h2
    | cons y ys =>
      cases c with
      | nil => simp [name_cmp] at h2
      | cons z zs => rfl
  | cons x xs ih =>
    intro b c h1 h2
    cases b with
    | nil => simp [name_cmp] at h1
    | cons y ys =>
      cases c with
      | nil => simp [name_cmp] at h2
      | cons z zs =>
        rcases Nat.lt_trichotomy x y with hxy | hxy | hxy
        · rcases Nat.lt_trichotomy y z with hyz | hyz | hyz
          · simp [name_cmp, show x < z by omega]
          · subst hyz
            simp [name_cmp, hxy]
          · simp [name_cmp, hyz, Nat.lt_asymm hyz] at h2
        · subst hxy
          rcases Nat.lt_trichotomy x z with hxz | hxz | hxz
          · simp [name_cmp, hxz]
          · subst hxz
            simp [name_cmp, Nat.lt_irrefl] at h1 h2 ⊢
            exact ih h1 h2
          · simp [name_cmp, hxz, Nat.lt_asymm hxz] at h2
        · simp [name_cmp, hxy, Nat.lt_asymm hxy] at h1

/-! Sortedness lemmas. -/

theorem dir_sorted_rest {a : List Nat × Nat} {l : List (List Nat × Nat)}
    (h : dir_sorted (a :: l) = true) : dir_sorted l = true := by
  cases l with
  | nil => rfl
  | cons b rest =>
    unfold dir_sorted at h
    simp only [Bool.and_eq_true] at h
    exact h.2

theorem dir_sorted_head_lt {a : List Nat × Nat} {l : List (List Nat × Nat)}
    (h : dir_sorted (a :: l) = true) :
    ∀ b ∈ l, name_cmp a.1 b.1 = .lt := by
  induction l generalizing a with
  | nil => intro b hb; cases hb
  | cons c rest ih =>
    intro b hb
    unfold dir_sorted at h
    simp only [Bool.and_eq_true, decide_eq_true_eq] at h
    obtain ⟨hac', hrest⟩ := h
    cases hb with
    | head => exact hac'
    | tail _ hb' => exact name_cmp_lt_trans hac' (ih hrest b hb')

theorem dir_sorted_pairwise {l : List (List Nat × Nat)}
    (h : dir_sorted l = true) :
    List.Pairwise (fun a b => name_cmp a.1 b.1 = .lt) l := by
  induction l with
  | nil => exact List.Pairwise.nil
  | cons a rest ih =>
    exact List.pairwise_cons.mpr ⟨dir_sorted_head_lt h, ih (dir_sorted_rest h)⟩

theorem dir_sorted_getElem_lt {l : List (List Nat × Nat)}
    (h : dir_sorted l = true) {i j : Nat} (hi : i < l.length)
    (hj : j < l.length) (hij : i < j) :
    name_cmp (l[i]).1 (l[j]).1 = .lt :=
  List.pairwise_iff_getElem.mp (dir_sorted_pairwise h) i j hi hj hij

/-! Binary-search correctness. -/

theorem lookup_go_none {E : List (List Nat × Nat)} {nm : List Nat}
    (hnone : ∀ e ∈ E, e.1 ≠ nm) :
    ∀ fuel lo hi, lcfs_lookup_go E nm fuel lo hi = none := by
  intro fuel
  induction fuel with
  | zero => intro lo hi; rfl
  | succ f ih =>
    intro lo hi
    unfold lcfs_lookup_go
    by_cases hlohi : lo < hi
    · simp only [hlohi, if_true]
      cases hget : E.get? ((lo + hi) / 2) with
      | none => rfl
      | some e =>
        dsimp only
        have he : e ∈ E := List.get?_mem hget
        cases hc : name_cmp nm e.1 with
        | lt => exact ih lo ((lo + hi) / 2)
        | eq => exact absurd (name_cmp_eq_iff.mp hc).symm (hnone e he)
        | gt => exact ih ((lo + hi) / 2 + 1) hi
    · simp [hlohi]

theorem lookup_go_found {E : List (List Nat × Nat)} {nm : List Nat}
    (hs : dir_sorted E = true) {i : Nat} (hi : i < E.length)
    (hname : (E[i]).1 = nm) :
    ∀ fuel lo hi2, hi2 ≤ E.length → hi2 - lo ≤ fuel → lo ≤ i → i < hi2 →
      lcfs_lookup_go E nm fuel lo hi2 = some (E[i]).2 := by
  intro fuel
  induction fuel with
  | zero => intro lo hi2 _ hf hloi hihi; omega
  | succ f ih =>
    intro lo hi2 hlen hf hloi hihi
    have hlohi : lo < hi2 := Nat.lt_of_le_of_lt hloi hihi
    have hmidlt : (lo + hi2) / 2 < hi2 := by omega
    have hmidlen : (lo + hi2) / 2 < E.length := Nat.lt_of_lt_of_le hmidlt hlen
    unfold lcfs_lookup_go
    simp only [hlohi, if_true]
    cases hget : E.get? ((lo + hi2) / 2) with
    | none =>
      rw [List.get?_eq_none] at hget
      omega
    | some e =>
      have hsome := List.get?_eq_get hmidlen
      rw [hget] at hsome
      have he : e = E[(lo + hi2) / 2] := Option.some.inj hsome
      subst he
      dsimp only
      cases hc : name_cmp nm (E[(lo + hi2) / 2]).1 with
      | lt =>
        -- the match must lie strictly left of the probe
        have himid : i < (lo + hi2) / 2 := by
          by_contra hle
          rcases Nat.lt_or_ge ((lo + hi2) / 2) i with hlt | hge
          · have h1 := dir_sorted_getElem_lt hs hmidlen hi hlt
            rw [hname] at h1
            have h2 := name_cmp_lt_trans hc h1
            rw [name_cmp_self] at h2
            simp at h2
          · have hieq : i = (lo + hi2) / 2 := by omega
            subst hieq
            rw [hname, name_cmp_self] at hc
            simp at hc
        exact ih lo ((lo + hi2) / 2) (Nat.le_of_lt hmidlen) (by omega) hloi himid
      | eq =>
        have heq : nm = (E[(lo + hi2) / 2]).1 := name_cmp_eq_iff.mp hc
        have hieq : i = (lo + hi2) / 2 := by
          by_contra hne
          rcases Nat.lt_or_ge i ((lo + hi2) / 2) with hlt | hge
          · have h1 := dir_sorted_getElem_lt hs hi hmidlen hlt
            rw [hname, ← heq, name_cmp_self] at h1
            simp at h1
          · have hlt : (lo + hi2) / 2 < i := by omega
            have h1 := dir_sorted_getElem_lt hs hmidlen hi hlt
            rw [hname, ← heq, name_cmp_self] at h1
            simp at h1
        subst hieq
        rfl
      | gt =>
        have hc' : name_cmp (E[(lo + hi2) / 2]).1 nm = .lt := name_cmp_gt_iff.mp hc
        have hmidi : (lo + hi2) / 2 < i := by
          by_contra hle
          rcases Nat.lt_or_ge i ((lo + hi2) / 2) with hlt | hge
          · have h1 := dir_sorted_getElem_lt hs hi hmidlen hlt
            rw [hname] at h1
            have h2 := name_cmp_lt_trans h1 hc'
            rw [name_cmp_self] at h2
            simp at h2
          · have hieq : i = (lo + hi2) / 2 := by omega
            subst hieq
            rw [hname, name_cmp_self] at hc
            simp at hc
        exact ih ((lo + hi2) / 2 + 1) hi2 hlen (by omega) hmidi hihi

theorem linear_scan_none_iff {E : List (List Nat × Nat)} {nm : List Nat} :
    linear_scan E nm = none ↔ ∀ e ∈ E, e.1 ≠ nm := by
  induction E with
  | nil => simp [linear_scan]
  | cons e rest ih =>
    by_cases h : e.1 = nm <;> simp [linear_scan, h, ih]

theorem linear_scan_found {nm : List Nat} :
    ∀ (E : List (List Nat × Nat)), dir_sorted E = true →
      ∀ (i : Nat) (hi : i < E.length), (E[i]).1 = nm →
        linear_scan E nm = some (E[i]).2 := by
  intro E
  induction E with
  | nil => intro _ i hi; simp at hi
  | cons e rest ih =>
    intro hs i hi hname
    by_cases h : e.1 = nm
    · cases i with
      | zero => simp [linear_scan, h]
      | succ j =>
        have hj : j < rest.length := by simpa using hi
        have hmem : rest[j] ∈ rest := List.getElem_mem hj
        have hlt := dir_sorted_head_lt hs (rest[j]) hmem
        have hj' : (rest[j]).1 = nm := by simpa using hname
        rw [h, hj', name_cmp_self] at hlt
        simp at hlt
    · cases i with
      | zero =>
        simp only [List.getElem_cons_zero] at hname
        exact absurd hname h
      | succ j =>
        have hj : j < rest.length := by simpa using hi
        have hj' : (rest[j]).1 = nm := by simpa using hname
        have hres := ih (dir_sorted_rest hs) j hj hj'
        simpa [linear_scan, h] using hres

/-- Claim C1: `lcfs_mount` reads only the fixed-size header at offset 0
of the image fd: its routing depends only on `pread HEADER_SIZE 0` (and
the verity measurement) among all oracles.  When the full header is read
and its magic equals the EROFS magic it delegates to the EROFS/overlay
path; on a short read, or on a magic mismatch, it returns `-EINVAL`
without mounting anything. -/
theorem lcfs_mount_header_routing (digest : List Nat) (len : Nat)
    (w w2 : MountWorld) (hm : w2.measure = w.measure)
    (hp : w2.pread HEADER_SIZE 0 = w.pread HEADER_SIZE 0) :
    lcfs_mount_route digest len w2 = lcfs_mount_route digest len w ∧
    (lcfs_validate_verity_fd digest len w.measure = 0 →
      ∀ bytes, w.pread HEADER_SIZE 0 = .ok bytes →
        ((bytes.length = HEADER_SIZE ∧
            erofs_header_magic bytes = LCFS_EROFS_MAGIC) →
          lcfs_mount_route digest len w = .erofs bytes ∧
          lcfs_mount digest len w = w.erofsOvl bytes) ∧
        (bytes.length ≠ HEADER_SIZE →
          lcfs_mount_route digest len w = .fail (-EINVAL) ∧
          lcfs_mount digest len w = -EINVAL) ∧
        ((bytes.length = HEADER_SIZE ∧
            erofs_header_magic bytes ≠ LCFS_EROFS_MAGIC) →
          lcfs_mount_route digest len w = .fail (-EINVAL) ∧
          lcfs_mount digest len w = -EINVAL)) := by
  constructor
  · unfold lcfs_mount_route
    rw [hm, hp]
  · intro hv bytes hb
    have hroute0 : lcfs_mount_route digest len w =
        (if bytes.length ≠ HEADER_SIZE then .fail (-EINVAL)
         else if erofs_header_magic bytes = LCFS_EROFS_MAGIC then .erofs bytes
         else .fail (-EINVAL)) := by
      unfold lcfs_mount_route
      rw [hv, hb]
      norm_num
    refine ⟨?_, ?_, ?_⟩
    · rintro ⟨hlen, hmagic⟩
      have hr : lcfs_mount_route digest len w = .erofs bytes := by
        rw [hroute0]
        simp [hlen, hmagic]
      exact ⟨hr, by unfold lcfs_mount; rw [hr]⟩
    · intro hlen
      have hr : lcfs_mount_route digest len w = .fail (-EINVAL) := by
        rw [hroute0]
        simp [hlen]
      exact ⟨hr, by unfold lcfs_mount; rw [hr]⟩
    · rintro ⟨hlen, hmagic⟩
      have hr : lcfs_mount_route digest len w = .fail (-EINVAL) := by
        rw [hroute0]
        simp [hlen, hmagic]
      exact ⟨hr, by unfold lcfs_mount; rw [hr]⟩

/-- Witness: the C1 theorem routing a concrete valid EROFS header to the
EROFS/overlay path. -/
theorem lcfs_mount_header_routing_witness :
    lcfs_mount [] 0 ⟨.ok [], fun _ _ => .ok c1_header, fun _ => 7⟩ = 7 := by
  have h := lcfs_mount_header_routing [] 0
    ⟨.ok [], fun _ _ => .ok c1_header, fun _ => 7⟩
    ⟨.ok [], fun _ _ => .ok c1_header, fun _ => 7⟩ rfl rfl
  exact ((h.2 (by decide) c1_header rfl).1 ⟨by decide, by decide⟩).2

/-- Claim C3: the fs-verity check precedes any header read.  With an
expected digest whose measured value differs, `lcfs_mount` fails with
`-EWRONGVERITY` whatever the pread oracle would return (the theorem holds
for every `w.pread`, so no header byte influences the result) and without
invoking the EROFS/overlay path; with no expected digest
(`expected_digest_len = 0`), the verity validation returns 0 for every
measurement oracle, i.e. no measurement outcome is consulted. -/
theorem lcfs_mount_verity_first (digest found : List Nat) (len : Nat)
    (w : MountWorld) :
    (len ≠ 0 → w.measure = .ok found →
      digest.take LCFS_DIGEST_SIZE ≠ found.take LCFS_DIGEST_SIZE →
      lcfs_mount_route digest len w = .fail (-EWRONGVERITY) ∧
      lcfs_mount digest len w = -EWRONGVERITY) ∧
    (∀ m, lcfs_validate_verity_fd digest 0 m = 0) := by
  constructor
  · intro hlen hmeas hdiff
    have hv : lcfs_validate_verity_fd digest len w.measure = -EWRONGVERITY := by
      unfold lcfs_validate_verity_fd
      rw [hmeas]
      simp [hlen, hdiff]
    have hroute : lcfs_mount_route digest len w = .fail (-EWRONGVERITY) := by
      unfold lcfs_mount_route
      rw [hv]
      rw [if_pos (by norm_num [EWRONGVERITY])]
    exact ⟨hroute, by unfold lcfs_mount; rw [hroute]⟩
  · intro m
    simp [lcfs_validate_verity_fd]

/-- Witness: the C3 theorem applied to a concrete digest mismatch. -/
theorem lcfs_mount_verity_first_witness :
    lcfs_mount [1] 1 ⟨.ok [2], fun _ _ => .fail (-5), fun _ => 0⟩ =
      -EWRONGVERITY :=
  ((lcfs_mount_verity_first [1] [2] 1
      ⟨.ok [2], fun _ _ => .fail (-5), fun _ => 0⟩).1
    (by decide) rfl (by decide)).2

/-- Claim C9: with inconsistent options, `lcfs_mount_fd` and
`lcfs_mount_image` return `-1` with errno `EINVAL` for every verity,
read, open and mount oracle — i.e. before attempting any of those
operations. -/
theorem lcfs_mount_fd_image_einval (options : lcfs_mount_options_s)
    (digestToRaw : List Char → Int × List Nat)
    (h : bad_mount_options options digestToRaw) :
    ∀ (w : MountWorld) (openErr : Option Int),
      lcfs_mount_fd options digestToRaw w = (-1, EINVAL) ∧
      lcfs_mount_image options digestToRaw openErr w = (-1, EINVAL) := by
  have hval : (lcfs_validate_mount_options options digestToRaw).1 = -EINVAL := by
    unfold lcfs_validate_mount_options
    by_cases hA : options.flags &&& LCFS_MOUNT_FLAGS_MASK ≠ options.flags
    · simp [hA]
    · by_cases hB : options.objdirs.length = 0
      · simp [hA, hB]
      · by_cases hC : (options.upperdir.isSome ∧ options.workdir = none) ∨
            (options.upperdir = none ∧ options.workdir.isSome)
        · simp [hA, hB, hC]
        · unfold bad_mount_options at h
          rcases h with h | h | h | h | ⟨d, hd, hneg⟩ | h
          · exact absurd h hA
          · exact absurd h hB
          · exact absurd (Or.inl h) hC
          · exact absurd (Or.inr h) hC
          · simp [hA, hB, hC, hd, hneg]
          · cases hopt : options.expected_fsverity_digest with
            | none => simp [hA, hB, hC, hopt, h]
            | some d =>
              by_cases hneg : (digestToRaw d).1 < 0
              · simp [hA, hB, hC, hopt, hneg]
              · simp [hA, hB, hC, hopt, hneg, h]
  intro w openErr
  constructor
  · simp [lcfs_mount_fd, hval, EINVAL]
  · simp [lcfs_mount_image, hval, EINVAL]

/-- Witness: the C9 theorem applied to options with zero object
directories. -/
theorem lcfs_mount_fd_image_einval_witness :
    lcfs_mount_fd ⟨[], 0, 0, none, none, none, none⟩ (fun _ => (0, []))
      ⟨.ok [], fun _ _ => .ok [], fun _ => 0⟩ = (-1, EINVAL) :=
  ((lcfs_mount_fd_image_einval ⟨[], 0, 0, none, none, none, none⟩
      (fun _ => (0, [])) (Or.inr (Or.inl rfl)))
    ⟨.ok [], fun _ _ => .ok [], fun _ => 0⟩ none).1

/-- Membership in the fallback trace: exactly the one legacy mount
action, and only when idmapping was not requested. -/
theorem lcfs_mount_erofs_fallback_mem_iff (sys : SysAction → Int)
    (source target : List Char) (image_flags optflags : Nat) (x : SysAction) :
    x ∈ (lcfs_mount_erofs_fallback sys source target image_flags optflags).2 ↔
      ¬ optflags &&& LCFS_MOUNT_FLAGS_IDMAP ≠ 0 ∧
      x = SysAction.mountLegacy source target "erofs" MS_RDONLY
        (if image_flags &&& LCFS_EROFS_FLAGS_HAS_ACL ≠ 0 then none
         else some "noacl".toList) := by
  unfold lcfs_mount_erofs_fallback
  by_cases hid : optflags &&& LCFS_MOUNT_FLAGS_IDMAP ≠ 0 <;> simp [hid]

theorem mem_erofs_noacl_steps (image_flags : Nat) (x : SysAction) :
    x ∈ erofs_noacl_steps image_flags ↔
      ¬ image_flags &&& LCFS_EROFS_FLAGS_HAS_ACL ≠ 0 ∧
      x = SysAction.fsconfigFlag "noacl" := by
  unfold erofs_noacl_steps
  by_cases hacl : image_flags &&& LCFS_EROFS_FLAGS_HAS_ACL ≠ 0 <;> simp [hacl]

theorem mem_erofs_idmap_steps (optflags : Nat) (b : Bool) (x : SysAction) :
    x ∈ erofs_idmap_steps optflags b ↔
      (optflags &&& LCFS_MOUNT_FLAGS_IDMAP ≠ 0 ∧ b) ∧
      x = SysAction.mountSetattr := by
  unfold erofs_idmap_steps
  by_cases hid : optflags &&& LCFS_MOUNT_FLAGS_IDMAP ≠ 0 ∧ b <;> simp [hid]

set_option maxHeartbeats 2000000 in
/-- Every trace of `lcfs_mount_erofs` is either a fallback trace
(possibly after an `ENOSYS` `fsopen`) or one of the call prefixes of the
new-mount-API sequence. -/
theorem lcfs_mount_erofs_trace_cases (hasNewMountApi hasMountAttrIdmap : Bool)
    (sys : SysAction → Int) (source target : List Char)
    (image_flags optflags : Nat) (tr : List SysAction)
    (htr : tr = (lcfs_mount_erofs hasNewMountApi hasMountAttrIdmap sys source
        target image_flags optflags).2) :
    tr =
      (lcfs_mount_erofs_fallback sys source target image_flags optflags).2 ∨
    tr =
      SysAction.fsopen "erofs" ::
        (lcfs_mount_erofs_fallback sys source target image_flags optflags).2 ∨
    tr = [SysAction.fsopen "erofs"] ∨
    tr = [SysAction.fsopen "erofs", SysAction.fsconfigStr "source" source] ∨
    tr = [SysAction.fsopen "erofs", SysAction.fsconfigStr "source" source,
       SysAction.fsconfigFlag "ro"] ∨
    tr = [SysAction.fsopen "erofs", SysAction.fsconfigStr "source" source,
       SysAction.fsconfigFlag "ro"] ++ erofs_noacl_steps image_flags ∨
    tr = [SysAction.fsopen "erofs", SysAction.fsconfigStr "source" source,
       SysAction.fsconfigFlag "ro"] ++ erofs_noacl_steps image_flags ++
      [SysAction.fsconfigCreate] ∨
    tr = [SysAction.fsopen "erofs", SysAction.fsconfigStr "source" source,
       SysAction.fsconfigFlag "ro"] ++ erofs_noacl_steps image_flags ++
      [SysAction.fsconfigCreate, SysAction.fsmount] ∨
    tr = [SysAction.fsopen "erofs", SysAction.fsconfigStr "source" source,
       SysAction.fsconfigFlag "ro"] ++ erofs_noacl_steps image_flags ++
      [SysAction.fsconfigCreate, SysAction.fsmount] ++
      erofs_idmap_steps optflags hasMountAttrIdmap ∨
    tr = [SysAction.fsopen "erofs", SysAction.fsconfigStr "source" source,
       SysAction.fsconfigFlag "ro"] ++ erofs_noacl_steps image_flags ++
      [SysAction.fsconfigCreate, SysAction.fsmount] ++
      erofs_idmap_steps optflags hasMountAttrIdmap ++
      [SysAction.moveMount target] := by
  unfold lcfs_mount_erofs at htr
  dsimp only at htr
  split_ifs at htr <;> simp_all

set_option maxHeartbeats 2000000 in
/-- Claim C4: when the image header's flag bits lack the has-ACL bit,
`lcfs_mount_erofs` passes the `noacl` option to the kernel EROFS mount on
both the new-mount-API path (whenever the mount is actually created) and
the legacy mount(2) fallback; when the has-ACL bit is set, no `noacl`
option is ever passed on either path. -/
theorem lcfs_mount_erofs_noacl (hasNewMountApi hasMountAttrIdmap : Bool)
    (sys : SysAction → Int) (source target : List Char)
    (image_flags optflags : Nat) :
    (image_flags &&& LCFS_EROFS_FLAGS_HAS_ACL ≠ 0 →
      SysAction.fsconfigFlag "noacl" ∉
        (lcfs_mount_erofs hasNewMountApi hasMountAttrIdmap sys source target
          image_flags optflags).2 ∧
      (∀ s t f fl d,
        SysAction.mountLegacy s t f fl d ∈
          (lcfs_mount_erofs hasNewMountApi hasMountAttrIdmap sys source target
            image_flags optflags).2 → d = none)) ∧
    (image_flags &&& LCFS_EROFS_FLAGS_HAS_ACL = 0 →
      (SysAction.fsconfigCreate ∈
          (lcfs_mount_erofs hasNewMountApi hasMountAttrIdmap sys source target
            image_flags optflags).2 →
        SysAction.fsconfigFlag "noacl" ∈
          (lcfs_mount_erofs hasNewMountApi hasMountAttrIdmap sys source target
            image_flags optflags).2) ∧
      (∀ s t f fl d,
        SysAction.mountLegacy s t f fl d ∈
          (lcfs_mount_erofs hasNewMountApi hasMountAttrIdmap sys source target
            image_flags optflags).2 → d = some "noacl".toList)) := by
  constructor
  · intro hacl
    constructor
    · intro hmem
      rcases lcfs_mount_erofs_trace_cases hasNewMountApi hasMountAttrIdmap sys
          source target image_flags optflags _ rfl with
        h | h | h | h | h | h | h | h | h | h <;>
        rw [h] at hmem <;>
        simp_all [lcfs_mount_erofs_fallback_mem_iff, mem_erofs_noacl_steps,
          mem_erofs_idmap_steps]
    · intro s t f fl d hmem
      rcases lcfs_mount_erofs_trace_cases hasNewMountApi hasMountAttrIdmap sys
          source target image_flags optflags _ rfl with
        h | h | h | h | h | h | h | h | h | h <;>
        rw [h] at hmem <;>
        simp_all [lcfs_mount_erofs_fallback_mem_iff, mem_erofs_noacl_steps,
          mem_erofs_idmap_steps]
  · intro hacl
    constructor
    · intro hcr
      rcases lcfs_mount_erofs_trace_cases hasNewMountApi hasMountAttrIdmap sys
          source target image_flags optflags _ rfl with
        h | h | h | h | h | h | h | h | h | h <;>
        rw [h] at hcr ⊢ <;>
        simp_all [lcfs_mount_erofs_fallback_mem_iff, mem_erofs_noacl_steps,
          mem_erofs_idmap_steps]
    · intro s t f fl d hmem
      rcases lcfs_mount_erofs_trace_cases hasNewMountApi hasMountAttrIdmap sys
          source target image_flags optflags _ rfl with
        h | h | h | h | h | h | h | h | h | h <;>
        rw [h] at hmem <;>
        simp_all [lcfs_mount_erofs_fallback_mem_iff, mem_erofs_noacl_steps,
          mem_erofs_idmap_steps]

/-- Witness: the C4 theorem on a concrete run without the has-ACL bit,
where the created EROFS mount carries the noacl option. -/
theorem lcfs_mount_erofs_noacl_witness :
    SysAction.fsconfigFlag "noacl" ∈
      (lcfs_mount_erofs true true (fun _ => 0) [] [] 0 0).2 :=
  ((lcfs_mount_erofs_noacl true true (fun _ => 0) [] [] 0 0).2 rfl).1
    (by decide)

/-- Claim C10: after a successful EROFS mount, `lcfs_mount_erofs_ovl`
falls back from the new-mount-API overlay path (`lcfs_mount_ovl`) to the
legacy mount(2) path exactly when the former returns `-ENOSYS`; and the
legacy path retries exactly once — with the single-":" separator and
without MS_SILENT — precisely when the first ("::") attempt fails with
`EINVAL`. -/
theorem lcfs_mount_erofs_ovl_fallback (hasNewMountApi hasMountAttrIdmap : Bool)
    (w : ErofsOvlWorld) (options : lcfs_mount_options_s) (header : List Nat)
    (loopname imagemountTmp : List Char)
    (hloop : 0 ≤ w.loop) (hmnt : options.image_mountdir = none)
    (hmk : w.mkdtempErr = none)
    (herofs : 0 ≤ (lcfs_mount_erofs hasNewMountApi hasMountAttrIdmap w.sysErofs
        loopname imagemountTmp (erofs_header_flags header) options.flags).1) :
    lcfs_mount_erofs_ovl hasNewMountApi hasMountAttrIdmap w options header
        loopname imagemountTmp =
      (if lcfs_mount_ovl hasNewMountApi w.sysOvl options.flags options.upperdir
            options.workdir options.objdirs.length = -ENOSYS
       then lcfs_mount_ovl_legacy w.mountOvlLegacy imagemountTmp
            options.objdirs options.flags options.upperdir options.workdir
       else (lcfs_mount_ovl hasNewMountApi w.sysOvl options.flags
            options.upperdir options.workdir options.objdirs.length, [])) ∧
    (∀ (mountRes : List Char → Nat → Int) (im : List Char)
        (objdirs : List (List Char)) (fl : Nat) (up wk : Option (List Char)),
      (mountRes (legacy_attempt true im objdirs fl up wk).1
          (legacy_attempt true im objdirs fl up wk).2 = -EINVAL →
        lcfs_mount_ovl_legacy mountRes im objdirs fl up wk =
          (mountRes (legacy_attempt false im objdirs fl up wk).1
             (legacy_attempt false im objdirs fl up wk).2,
           [legacy_attempt true im objdirs fl up wk,
            legacy_attempt false im objdirs fl up wk])) ∧
      (mountRes (legacy_attempt true im objdirs fl up wk).1
          (legacy_attempt true im objdirs fl up wk).2 ≠ -EINVAL →
        lcfs_mount_ovl_legacy mountRes im objdirs fl up wk =
          (mountRes (legacy_attempt true im objdirs fl up wk).1
             (legacy_attempt true im objdirs fl up wk).2,
           [legacy_attempt true im objdirs fl up wk]))) := by
  constructor
  · unfold lcfs_mount_erofs_ovl
    rw [hmnt, hmk]
    rw [if_neg (by omega : ¬ w.loop < 0)]
    dsimp only
    rw [if_neg (Int.not_lt.mpr herofs)]
  · intro mountRes im objdirs fl up wk
    constructor
    · intro h1
      simp [lcfs_mount_ovl_legacy, h1]
    · intro h1
      simp [lcfs_mount_ovl_legacy, h1]

/-- Witness: the C10 theorem on a concrete run where the new mount API is
absent, so `lcfs_mount_ovl` reports `-ENOSYS` and the legacy path runs. -/
theorem lcfs_mount_erofs_ovl_fallback_witness :
    lcfs_mount_erofs_ovl false false
        ⟨0, none, fun _ => 0, fun _ => 0, fun _ _ => 0⟩
        ⟨[], 0, 0, none, none, none, none⟩ [] [] [] =
      lcfs_mount_ovl_legacy (fun _ _ => 0) [] [] 0 none none := by
  have h := lcfs_mount_erofs_ovl_fallback false false
    ⟨0, none, fun _ => 0, fun _ => 0, fun _ _ => 0⟩
    ⟨[], 0, 0, none, none, none, none⟩ [] [] []
    (by decide) rfl rfl (by decide)
  rw [h.1, if_pos (by decide)]

/-- Claim C6: for every directory whose entry array is sorted by name
with no duplicates, the binary-search `lcfs_lookup` returns the same
inode reference as a linear scan of the entries for every name present,
and NotFound (`none`, exactly when no entry carries the name) for every
absent name. -/
theorem lcfs_lookup_eq_linear_scan (entries : List (List Nat × Nat))
    (h : dir_sorted entries = true) (name : List Nat) :
    lcfs_lookup entries name = linear_scan entries name ∧
    (linear_scan entries name = none ↔ ∀ e ∈ entries, e.1 ≠ name) := by
  refine ⟨?_, linear_scan_none_iff⟩
  by_cases hex : ∃ i, ∃ hi : i < entries.length, (entries[i]).1 = name
  · obtain ⟨i, hi, hname⟩ := hex
    rw [lcfs_lookup,
      lookup_go_found h hi hname (entries.length + 1) 0 entries.length
        le_rfl (by omega) (Nat.zero_le i) hi,
      linear_scan_found entries h i hi hname]
  · push_neg at hex
    have hnone : ∀ e ∈ entries, e.1 ≠ name := by
      intro e he heq
      obtain ⟨i, hi, hei⟩ := List.mem_iff_getElem.mp he
      exact hex i hi (by rw [hei, heq])
    rw [lcfs_lookup, lookup_go_none hnone (entries.length + 1) 0 entries.length]
    exact (linear_scan_none_iff.mpr hnone).symm

/-- Witness: the C6 theorem applied to a concrete sorted directory. -/
theorem lcfs_lookup_eq_linear_scan_witness :
    dir_sorted [([97], 10), ([98], 20)] = true ∧
    lcfs_lookup [([97], 10), ([98], 20)] [98] =
      linear_scan [([97], 10), ([98], 20)] [98] :=
  ⟨by decide,
    (lcfs_lookup_eq_linear_scan [([97], 10), ([98], 20)] (by decide) [98]).1⟩

/-! Header-validation helper lemmas for the spec-modelled reader. -/

theorem read_u32le_some_le {buf : List Nat} {off v : Nat}
    (h : read_u32le buf off = some v) : off + 4 ≤ buf.length := by
  by_cases hle : off + 4 ≤ buf.length
  · exact hle
  · simp [read_u32le, hle] at h

theorem lcfs_create_ctx_ok_inv {buf : List Nat} {ctx : lcfs_context_s}
    (h : lcfs_create_ctx buf = .ok ctx) :
    ctx.buf = buf ∧ LCFS_SPEC_HEADER_SIZE ≤ buf.length ∧
    1 ≤ ctx.inode_count ∧
    ctx.inode_table_offset + ctx.inode_count * LCFS_INODE_SIZE ≤ buf.length := by
  unfold lcfs_create_ctx at h
  cases h0 : read_u32le buf 0 with
  | none => rw [h0] at h; simp at h
  | some magic =>
  cases h4 : read_u32le buf 4 with
  | none => rw [h0, h4] at h; simp at h
  | some version =>
  cases h8 : read_u32le buf 8 with
  | none => rw [h0, h4, h8] at h; simp at h
  | some count =>
  cases h12 : read_u32le buf 12 with
  | none => rw [h0, h4, h8, h12] at h; simp at h
  | some toff =>
  rw [h0, h4, h8, h12] at h
  dsimp only at h
  split_ifs at h with hm hv hc ht
  have hctx : lcfs_context_s.mk buf count toff = ctx := Except.ok.inj h
  subst hctx
  refine ⟨rfl, ?_, ?_, ?_⟩
  · simpa [LCFS_SPEC_HEADER_SIZE] using read_u32le_some_le h12
  · show 1 ≤ count
    omega
  · show toff + count * LCFS_INODE_SIZE ≤ buf.length
    omega

/-- Claim C2: for every byte buffer (empty, truncated, or arbitrary),
creating a Context either returns a context whose validated header fields
all lie within the buffer, or returns one of the well-defined errors; all
buffer reads are bounds-checked, so no access is out of bounds. -/
theorem lcfs_create_ctx_total (buf : List Nat) :
    (∃ ctx, lcfs_create_ctx buf = .ok ctx ∧ ctx.buf = buf ∧
      LCFS_SPEC_HEADER_SIZE ≤ buf.length ∧ 1 ≤ ctx.inode_count ∧
      ctx.inode_table_offset + ctx.inode_count * LCFS_INODE_SIZE ≤ buf.length) ∨
    (lcfs_create_ctx buf = .error .Truncated ∨
     lcfs_create_ctx buf = .error .InvalidFormat ∨
     lcfs_create_ctx buf = .error .UnsupportedVersion) := by
  cases h : lcfs_create_ctx buf with
  | ok ctx =>
    left
    obtain ⟨h1, h2, h3, h4⟩ := lcfs_create_ctx_ok_inv h
    exact ⟨ctx, rfl, h1, h2, h3, h4⟩
  | error e =>
    right
    unfold lcfs_create_ctx at h
    cases h0 : read_u32le buf 0 with
    | none => rw [h0] at h; simp_all
    | some magic =>
    cases h4 : read_u32le buf 4 with
    | none => rw [h0, h4] at h; simp_all
    | some version =>
    cases h8 : read_u32le buf 8 with
    | none => rw [h0, h4, h8] at h; simp_all
    | some count =>
    cases h12 : read_u32le buf 12 with
    | none => rw [h0, h4, h8, h12] at h; simp_all
    | some toff =>
    rw [h0, h4, h8, h12] at h
    dsimp only at h
    split_ifs at h <;> simp_all

/-- Claim C7: on every context that passed header validation, fetching
the root inode (`lcfs_get_ino_index` at `LCFS_ROOT_INODE`) never fails:
it returns a valid inode view. -/
theorem lcfs_root_inode_ok (buf : List Nat) (ctx : lcfs_context_s)
    (h : lcfs_create_ctx buf = .ok ctx) :
    ∃ v, lcfs_get_ino_index ctx LCFS_ROOT_INODE = .ok v := by
  obtain ⟨hbuf, hhdr, hcount, htab⟩ := lcfs_create_ctx_ok_inv h
  unfold lcfs_get_ino_index
  split_ifs with h1 h2
  · exfalso
    simp [LCFS_ROOT_INODE] at h1
    omega
  · exfalso
    rw [hbuf] at h2
    simp only [LCFS_ROOT_INODE, LCFS_INODE_SIZE] at h2
    simp only [LCFS_INODE_SIZE] at htab
    omega
  · exact ⟨_, rfl⟩

/-- Witness: the C7 theorem applied to a concrete valid image. -/
theorem lcfs_root_inode_ok_witness :
    ∃ v, lcfs_get_ino_index ⟨witness_image, 1, 16⟩ LCFS_ROOT_INODE = .ok v :=
  lcfs_root_inode_ok witness_image ⟨witness_image, 1, 16⟩ (by rfl)

/-! Recursion-bound lemmas for the fuzz harness model. -/

theorem foldr_max_le {l : List Nat} {b : Nat} (h : ∀ x ∈ l, x ≤ b) :
    l.foldr max 0 ≤ b := by
  induction l with
  | nil => simp
  | cons x xs ih =>
    simp only [List.foldr_cons]
    exact Nat.max_le.mpr
      ⟨h x (List.mem_cons_self x xs),
       ih (fun y hy => h y (List.mem_cons_of_mem x hy))⟩

theorem iter_cb_nesting_le (children : Nat → List Nat) :
    ∀ (fuel ino : Nat), iter_cb_nesting children fuel ino ≤ fuel := by
  intro fuel
  induction fuel with
  | zero => intro ino; simp [iter_cb_nesting]
  | succ f ih =>
    intro ino
    unfold iter_cb_nesting
    have hb : ((children ino).map (iter_cb_nesting children f)).foldr max 0 ≤ f := by
      apply foldr_max_le
      intro x hx
      obtain ⟨c, _, rfl⟩ := List.mem_map.mp hx
      exact ih c
    omega

/-- Claim C5: the fuzz harness's recursive directory traversal is bounded
by the explicit counter `max_recursion = 4`: for any directory structure
(including self-referential ones) and any root entry list, the traversal
performs at most 4 nested `lcfs_iterate_dir` levels — and, being a total
function, it terminates. -/
theorem harness_iterate_nesting_bounded (children : Nat → List Nat)
    (rootEntries : List Nat) :
    harness_iterate_nesting children rootEntries ≤ max_recursion ∧
    max_recursion = 4 := by
  constructor
  · unfold harness_iterate_nesting
    apply foldr_max_le
    intro x hx
    obtain ⟨c, _, rfl⟩ := List.mem_map.mp hx
    exact iter_cb_nesting_le children max_recursion c
  · rfl

/-- Claim C8: `escape_mount_option` returns the input characters in order
with a backslash inserted immediately before every comma, so its length is
the input length plus the number of commas; and `compute_lower` applies the
same escaping to the image mount path and to every object directory, joined
with `"::"` (data-lower) or `":"` separators. -/
theorem escape_mount_option_and_compute_lower_correct
    (s imagemount : List Char) (objdirs : List (List Char)) (wd : Bool) :
    escape_mount_option s =
      s.flatMap (fun c => if c = ',' then ['\\', c] else [c]) ∧
    (escape_mount_option s).length = s.length + s.count ',' ∧
    compute_lower imagemount objdirs wd =
      escape_mount_option imagemount ++
        objdirs.flatMap (fun d =>
          (if wd then [':', ':'] else [':']) ++ escape_mount_option d) := by
  refine ⟨?_, ?_, ?_⟩
  · simpa [escape_mount_option, escape_mount_option_to] using
      escape_chars_eq_flatMap s
  · simpa [escape_mount_option, escape_mount_option_to] using
      escape_chars_length s
  · unfold compute_lower
    rw [compute_lower_foldl]
    simp [escape_mount_option, escape_mount_option_to]

end Composefs
